import Mathlib

set_option maxRecDepth 4000

/- Verification of the ter-compliance lab-access system: a shallow embedding of
compliance/models.py, compliance/routes/manager.py and compliance/routes/engineer.py,
with theorems about the compliance evaluators, the LabAccess state machine and the
metrics store. -/

namespace TerCompliance

/- Calendar arithmetic. PyDate models Python datetime.date values; addMonths embeds
the helper from compliance/routes/manager.py (def _add_months), and toordinal embeds
the proleptic-Gregorian ordinal used by date.toordinal in _is_training_current. -/

structure PyDate where
  year : Int
  month : Int
  day : Int
deriving DecidableEq

def isLeapYear (y : Int) : Bool :=
  y % 4 == 0 && (y % 100 != 0 || y % 400 == 0)

def monthLengths (y : Int) : List Int :=
  [31, if isLeapYear y then 29 else 28, 31, 30, 31, 30, 31, 31, 30, 31, 30, 31]

def addMonths (d : PyDate) (months : Int) : PyDate :=
  let y := d.year + Int.fdiv (d.month - 1 + months) 12
  let m := (d.month - 1 + months) % 12 + 1
  let day := min d.day ((monthLengths y).getD (m - 1).toNat 0)
  { year := y, month := m, day := day }

def daysBeforeYear (y : Int) : Int :=
  365 * (y - 1) + Int.fdiv (y - 1) 4 - Int.fdiv (y - 1) 100 + Int.fdiv (y - 1) 400

def daysBeforeMonth (y m : Int) : Int :=
  ((monthLengths y).take (m - 1).toNat).foldl (fun a b => a + b) 0

def toordinal (d : PyDate) : Int :=
  daysBeforeYear d.year + daysBeforeMonth d.year d.month + d.day

def dateLt (x y : PyDate) : Bool :=
  x.year < y.year ||
    (x.year == y.year && (x.month < y.month || (x.month == y.month && x.day < y.day)))

/- Data model, from compliance/models.py. Surrogate ids are kept only where other
rows reference them. Timestamps (datetime columns) are modeled as abstract Int
instants supplied by callers in place of datetime.utcnow(). -/

structure Engineer where
  id : Int
  employee_no : String
  name : String
  email : String
deriving DecidableEq

structure Lab where
  id : Int
  code : String
  name : String
  grace_days : Int
deriving DecidableEq

structure Course where
  id : Int
  code : String
  name : String
  valid_months : Option Int
deriving DecidableEq

structure LabRequirement where
  lab_id : Int
  course_id : Int
  valid_months : Option Int
deriving DecidableEq

structure Completion where
  engineer_id : Int
  course_id : Int
  date_taken : PyDate
deriving DecidableEq

structure Document where
  id : Int
  lab_id : Int
  title : String
  version : Int
  mandatory : Bool
deriving DecidableEq

structure DocumentAck where
  engineer_id : Int
  document_id : Int
  version : Int
deriving DecidableEq

inductive AccessStatus where
  | pending
  | active
  | revoked
deriving DecidableEq

structure LabAccess where
  engineer_id : Int
  lab_id : Int
  status : AccessStatus
  reason_code : Option String
  effective_at : Int
deriving DecidableEq

structure LabMetrics where
  lab_id : Int
  asof : PyDate
  utilization : Int
  condition : Int
  activity : Int
deriving DecidableEq

structure DB where
  engineers : List Engineer
  labs : List Lab
  courses : List Course
  lab_requirements : List LabRequirement
  completions : List Completion
  documents : List Document
  document_acks : List DocumentAck
  lab_accesses : List LabAccess
  lab_metrics : List LabMetrics
deriving DecidableEq

/- Query helpers corresponding to Model.query.get / filter_by lookups. -/

def getEngineer (db : DB) (eid : Int) : Option Engineer :=
  db.engineers.find? (fun e => e.id == eid)

def getLab (db : DB) (lid : Int) : Option Lab :=
  db.labs.find? (fun l => l.id == lid)

def getCourse (db : DB) (cid : Int) : Option Course :=
  db.courses.find? (fun c => c.id == cid)

def completionsFor (db : DB) (eid cid : Int) : List Completion :=
  db.completions.filter (fun c => c.engineer_id == eid && c.course_id == cid)

def latestOf : List Completion → Option Completion
  | [] => none
  | c :: rest =>
      match latestOf rest with
      | none => some c
      | some b => if dateLt c.date_taken b.date_taken then some b else some c

/- Embeds _latest_completion (manager.py): the pending query orders by
date_taken descending and takes the first row, i.e. a completion with maximal
date_taken. -/
def latestCompletion (db : DB) (eid cid : Int) : Option Completion :=
  latestOf (completionsFor db eid cid)

/- Effective validity window: the override when set, else the course default
(manager.py line 47). -/
def effectiveMonths (override_months : Option Int) (course : Course) : Option Int :=
  match override_months with
  | some m => some m
  | none => course.valid_months

/- Embeds _is_training_current (manager.py). The Python guard
"if not months or months <= 0" rejects both None and non-positive values. -/
def isTrainingCurrent (db : DB) (engineer_id : Int) (course : Course)
    (override_months : Option Int) (grace_days : Int) (asof : PyDate) : Bool :=
  match effectiveMonths override_months course with
  | none => false
  | some months =>
      if months ≤ 0 then false
      else
        match latestCompletion db engineer_id course.id with
        | none => false
        | some comp =>
            let due := addMonths comp.date_taken months
            let dueGrace := toordinal due + grace_days
            decide (toordinal asof ≤ dueGrace)

def mandatoryDocs (db : DB) (lab_id : Int) : List Document :=
  db.documents.filter (fun d => d.lab_id == lab_id && d.mandatory)

def hasAck (db : DB) (engineer_id document_id version : Int) : Bool :=
  db.document_acks.any (fun a =>
    a.engineer_id == engineer_id && a.document_id == document_id && a.version == version)

/- Embeds _has_required_acks (manager.py): every mandatory document of the lab
must have an ack at the document current version; the empty case is vacuously true. -/
def hasRequiredAcks (db : DB) (engineer_id lab_id : Int) : Bool :=
  (mandatoryDocs db lab_id).all (fun d => hasAck db engineer_id d.id d.version)

def labRequirementsFor (db : DB) (lab_id : Int) : List LabRequirement :=
  db.lab_requirements.filter (fun r => r.lab_id == lab_id)

/- Embeds is_compliant_for_lab (manager.py): missing lab is false, a dangling
course reference on any requirement is false, otherwise the conjunction of
training currency over all requirements with the document-ack check. -/
def isCompliantForLab (db : DB) (engineer_id lab_id : Int) (asof : PyDate) : Bool :=
  match getLab db lab_id with
  | none => false
  | some lab =>
      ((labRequirementsFor db lab_id).all (fun r =>
        match getCourse db r.course_id with
        | none => false
        | some course =>
            isTrainingCurrent db engineer_id course r.valid_months lab.grace_days asof))
      && hasRequiredAcks db engineer_id lab_id

/- LabAccess state machine. -/

def findAccess (db : DB) (eid lid : Int) (st : AccessStatus) : Option LabAccess :=
  db.lab_accesses.find? (fun a => a.engineer_id == eid && a.lab_id == lid && a.status == st)

def pairRows (rows : List LabAccess) (eid lid : Int) : List LabAccess :=
  rows.filter (fun a => a.engineer_id == eid && a.lab_id == lid)

/- Embeds _ensure_access_state (manager.py): if the exact (engineer, lab, status)
row exists it is returned and nothing else happens; otherwise every row for the
pair is deleted and a fresh row at the desired status is inserted. -/
def ensureAccessState (db : DB) (eid lid : Int) (st : AccessStatus) (now : Int) :
    DB × LabAccess :=
  match findAccess db eid lid st with
  | some existing => (db, existing)
  | none =>
      let remaining := db.lab_accesses.filter (fun a => !(a.engineer_id == eid && a.lab_id == lid))
      let row : LabAccess :=
        { engineer_id := eid, lab_id := lid, status := st, reason_code := none,
          effective_at := now }
      ({ db with lab_accesses := remaining ++ [row] }, row)

inductive OpError where
  | invalidParams
  | engineerNotFound
  | labNotFound
  | noPendingRequest
  | integrityError
deriving DecidableEq

deriving instance DecidableEq for Except

def accessKey (a : LabAccess) : Int × Int × AccessStatus :=
  (a.engineer_id, a.lab_id, a.status)

def pairKeys (rows : List LabAccess) : List (Int × Int) :=
  rows.map (fun a => (a.engineer_id, a.lab_id))

/- Commit models db.session.commit(): SQLite enforces the unique constraint
uq_access_unique_state on (engineer_id, lab_id, status) declared in models.py,
raising IntegrityError and rolling back when a duplicate key would be stored.
Foreign keys are not enforced (no PRAGMA foreign_keys in the app). -/
def commitDB (db : DB) : Except OpError DB :=
  if ((db.lab_accesses.map accessKey).Nodup : Prop) then Except.ok db
  else Except.error OpError.integrityError

/- Embeds the approve route (manager.py): evaluates compliance as of today, then
ensures active when compliant and pending otherwise. No existence check is made
on the engineer or the lab. -/
def approve (db : DB) (engineer_id lab_id : Int) (asof : PyDate) (now : Int) :
    Except OpError DB :=
  if isCompliantForLab db engineer_id lab_id asof then
    commitDB (ensureAccessState db engineer_id lab_id AccessStatus.active now).1
  else
    commitDB (ensureAccessState db engineer_id lab_id AccessStatus.pending now).1

/- Embeds the revoke route (manager.py): unconditionally ensures revoked. -/
def revoke (db : DB) (engineer_id lab_id : Int) (now : Int) : Except OpError DB :=
  commitDB (ensureAccessState db engineer_id lab_id AccessStatus.revoked now).1

/- Embeds request_access (engineer.py): the Python truthiness guard rejects None
and 0 ids, then the engineer and the lab must exist, then a fresh pending row
with reason_code "requested" is inserted and committed. -/
def requestAccess (db : DB) (engineer_id lab_id : Option Int) (now : Int) :
    Except OpError DB :=
  let eid := engineer_id.getD 0
  let lid := lab_id.getD 0
  if eid == 0 || lid == 0 then Except.error OpError.invalidParams
  else
    match getEngineer db eid with
    | none => Except.error OpError.engineerNotFound
    | some _ =>
        match getLab db lid with
        | none => Except.error OpError.labNotFound
        | some _ =>
            let la : LabAccess :=
              { engineer_id := eid, lab_id := lid, status := AccessStatus.pending,
                reason_code := some ("requested"), effective_at := now }
            commitDB { db with lab_accesses := db.lab_accesses ++ [la] }

def pendingFor (db : DB) (eid lid : Int) : List LabAccess :=
  db.lab_accesses.filter (fun a =>
    a.engineer_id == eid && a.lab_id == lid && a.status == AccessStatus.pending)

def mostRecent : List LabAccess → Option LabAccess
  | [] => none
  | a :: rest =>
      match mostRecent rest with
      | none => some a
      | some b => if a.effective_at < b.effective_at then some b else some a

/- Helper modelling an in-place UPDATE of the single row matched by a query:
the first matching list entry is replaced by its updated value. -/
def updateFirstBy {α : Type} (p : α → Bool) (f : α → α) : List α → List α
  | [] => []
  | x :: xs => if p x then f x :: xs else x :: updateFirstBy p f xs

/- The in-place field assignments cancel_request performs on the pending row. -/
def cancelUpd (now : Int) (a : LabAccess) : LabAccess :=
  { a with status := AccessStatus.revoked, reason_code := some ("user_cancelled"),
           effective_at := now }

/- Embeds cancel_request (engineer.py): the most recent pending row for the pair
(ordered by effective_at descending) is flipped in place to revoked with
reason_code "user_cancelled", then committed. -/
def cancelRequest (db : DB) (engineer_id lab_id : Option Int) (now : Int) :
    Except OpError DB :=
  let eid := engineer_id.getD 0
  let lid := lab_id.getD 0
  if eid == 0 || lid == 0 then Except.error OpError.invalidParams
  else
    match mostRecent (pendingFor db eid lid) with
    | none => Except.error OpError.noPendingRequest
    | some row =>
        let rows := updateFirstBy (fun a => a == row) (cancelUpd now) db.lab_accesses
        commitDB { db with lab_accesses := rows }

/- Autocheck (manager.py): one step per snapshot entry, threading the session
state; counters follow the Python loop. -/

def autocheckStep (db : DB) (asof : PyDate) (now : Int) (eid lid : Int)
    (st : AccessStatus) : DB × Nat × Nat :=
  let compliant := isCompliantForLab db eid lid asof
  if st == AccessStatus.pending && compliant then
    ((ensureAccessState db eid lid AccessStatus.active now).1, 1, 0)
  else if st == AccessStatus.active && !compliant then
    ((ensureAccessState db eid lid AccessStatus.revoked now).1, 0, 1)
  else (db, 0, 0)

def autocheckLoop (asof : PyDate) (now : Int) (db : DB) :
    List (Int × Int × AccessStatus) → DB × Nat × Nat
  | [] => (db, 0, 0)
  | (eid, lid, st) :: rest =>
      let step := autocheckStep db asof now eid lid st
      let restRes := autocheckLoop asof now step.1 rest
      (restRes.1, step.2.1 + restRes.2.1, step.2.2 + restRes.2.2)

/- The snapshot query: all (engineer_id, lab_id, status) triples of rows whose
status is pending or active, taken before the loop starts. -/
def autocheckPairs (db : DB) : List (Int × Int × AccessStatus) :=
  (db.lab_accesses.filter (fun a =>
    a.status == AccessStatus.pending || a.status == AccessStatus.active)).map
    (fun a => (a.engineer_id, a.lab_id, a.status))

/- Embeds the autocheck route (manager.py). -/
def autocheck (db : DB) (asof : PyDate) (now : Int) :
    Except OpError (DB × Nat × Nat) :=
  let res := autocheckLoop asof now db (autocheckPairs db)
  (commitDB res.1).map (fun dbf => (dbf, res.2.1, res.2.2))

/- Metrics snapshot store (manager.py, metrics_save route). -/

def clampPct (v : Int) : Int := max 0 (min v 100)

def metricsKey (r : LabMetrics) : Int × PyDate := (r.lab_id, r.asof)

/- Overwrite of the three metric values of a row, keeping its key. -/
def metricsUpd (util cond act : Int) (r : LabMetrics) : LabMetrics :=
  { r with utilization := util, condition := cond, activity := act }

/- Embeds metrics_save: clamp the three values into 0..100, then upsert the row
keyed by (lab_id, asof): insert when absent, overwrite the three values in place
when present. -/
def saveMetrics (db : DB) (lab_id utilization condition activity : Int)
    (asof : PyDate) : DB :=
  let util := clampPct utilization
  let cond := clampPct condition
  let act := clampPct activity
  match db.lab_metrics.find? (fun r => r.lab_id == lab_id && r.asof == asof) with
  | none =>
      { db with lab_metrics := db.lab_metrics ++
          [{ lab_id := lab_id, asof := asof, utilization := util, condition := cond,
             activity := act }] }
  | some _ =>
      let rows := updateFirstBy (fun r => r.lab_id == lab_id && r.asof == asof)
        (metricsUpd util cond act) db.lab_metrics
      { db with lab_metrics := rows }

/- The per-row effect autocheck is intended to have on a reconciled store, used
to state its specification: a pending row of a now-compliant pair becomes the
fresh active row, an active row of a now-non-compliant pair becomes the fresh
revoked row, and every other row is untouched. -/
def autocheckRowResult (db : DB) (asof : PyDate) (now : Int) (a : LabAccess) :
    LabAccess :=
  if a.status == AccessStatus.pending && isCompliantForLab db a.engineer_id a.lab_id asof then
    { engineer_id := a.engineer_id, lab_id := a.lab_id, status := AccessStatus.active,
      reason_code := none, effective_at := now }
  else if a.status == AccessStatus.active && !isCompliantForLab db a.engineer_id a.lab_id asof then
    { engineer_id := a.engineer_id, lab_id := a.lab_id, status := AccessStatus.revoked,
      reason_code := none, effective_at := now }
  else a

def pairOf (p : Int × Int × AccessStatus) : Int × Int := (p.1, p.2.1)

/- Concrete stores used by counterexamples and witnesses. -/

def dbEmpty : DB := ⟨[], [], [], [], [], [], [], [], []⟩

def eng1 : Engineer := ⟨1, "E-001", "Alice", "alice@example.com"⟩

def lab1 : Lab := ⟨1, "LAB-A", "Lab A", 0⟩

def dbC1 : DB :=
  { dbEmpty with lab_accesses :=
      [⟨1, 1, AccessStatus.pending, none, 0⟩, ⟨1, 1, AccessStatus.revoked, none, 0⟩] }

def dbC4 : DB :=
  { dbEmpty with
      engineers := [eng1]
      labs := [lab1]
      lab_accesses := [⟨1, 1, AccessStatus.pending, some ("requested"), 0⟩] }

def dbRA : DB := { dbEmpty with engineers := [eng1], labs := [lab1] }

def dbC9 : DB :=
  { dbEmpty with lab_metrics := [⟨1, ⟨2024, 1, 1⟩, 10, 20, 30⟩] }

def dbC2 : DB :=
  { dbEmpty with
      labs := [lab1]
      lab_accesses :=
        [⟨1, 1, AccessStatus.pending, none, 0⟩, ⟨1, 1, AccessStatus.active, none, 0⟩] }

def dbW2 : DB :=
  { dbEmpty with
      labs := [lab1]
      lab_accesses := [⟨1, 1, AccessStatus.pending, none, 0⟩] }

/- General lemmas about the embedding. -/

theorem fdiv_emod_twelve (a : Int) : 12 * Int.fdiv a 12 + a % 12 = a := by
  have h := Int.fdiv_add_fmod a 12
  have h2 : Int.fmod a 12 = a % 12 := Int.fmod_eq_emod a (by norm_num)
  omega

theorem emod_twelve_bounds (a : Int) : 0 ≤ a % 12 ∧ a % 12 < 12 :=
  ⟨Int.emod_nonneg a (by norm_num), Int.emod_lt_of_pos a (by norm_num)⟩

/- Claim C8: month addition with day clamping, Gregorian leap rule and year
rollover. -/

/-- Claim C8: addMonths shifts the month index by exactly the requested number of
months (handling year rollover for positive, zero and negative counts), lands in
a month between 1 and 12, clamps the day-of-month to the length of the resulting
month, gives February 29 days exactly in Gregorian leap years, and satisfies the
concrete examples of the spec including the 1900/2000 century cases. -/
theorem addMonths_spec (d : PyDate) (months : Int) :
    (12 * (addMonths d months).year + ((addMonths d months).month - 1)
        = 12 * d.year + (d.month - 1) + months)
    ∧ (1 ≤ (addMonths d months).month ∧ (addMonths d months).month ≤ 12)
    ∧ (addMonths d months).day
        = min d.day ((monthLengths (addMonths d months).year).getD
            ((addMonths d months).month - 1).toNat 0)
    ∧ (∀ y : Int, (monthLengths y).getD 1 0 = if isLeapYear y then 29 else 28)
    ∧ addMonths ⟨2024, 1, 31⟩ 1 = ⟨2024, 2, 29⟩
    ∧ addMonths ⟨2023, 1, 31⟩ 1 = ⟨2023, 2, 28⟩
    ∧ addMonths ⟨2024, 3, 31⟩ (-1) = ⟨2024, 2, 29⟩
    ∧ addMonths ⟨1900, 1, 31⟩ 1 = ⟨1900, 2, 28⟩
    ∧ addMonths ⟨2000, 1, 31⟩ 1 = ⟨2000, 2, 29⟩ := by
  have hy : (addMonths d months).year = d.year + Int.fdiv (d.month - 1 + months) 12 := rfl
  have hm : (addMonths d months).month = (d.month - 1 + months) % 12 + 1 := rfl
  refine ⟨?_, ?_, rfl, fun y => rfl, by decide, by decide, by decide, by decide, by decide⟩
  · rw [hy, hm]
    have h1 := fdiv_emod_twelve (d.month - 1 + months)
    omega
  · rw [hm]
    have h2 := emod_twelve_bounds (d.month - 1 + months)
    omega

/- Claim C6: the training currency evaluator. -/

/-- Claim C6: isTrainingCurrent is true exactly when the effective validity (the
override when non-null, else the course default) is a positive number of months,
a latest completion exists for the engineer and course, and the as-of date is at
most the completion date plus that many months plus grace_days calendar days; in
particular a null or non-positive effective validity always yields false. -/
theorem is_training_current_iff (db : DB) (e : Int) (course : Course)
    (override_months : Option Int) (grace_days : Int) (asof : PyDate) :
    (isTrainingCurrent db e course override_months grace_days asof = true ↔
      ∃ m, effectiveMonths override_months course = some m ∧ 0 < m ∧
        ∃ comp, latestCompletion db e course.id = some comp ∧
          toordinal asof ≤ toordinal (addMonths comp.date_taken m) + grace_days)
    ∧ (effectiveMonths override_months course = none →
        isTrainingCurrent db e course override_months grace_days asof = false)
    ∧ (∀ m, effectiveMonths override_months course = some m → m ≤ 0 →
        isTrainingCurrent db e course override_months grace_days asof = false) := by
  refine ⟨?_, ?_, ?_⟩
  · unfold isTrainingCurrent
    cases h : effectiveMonths override_months course with
    | none => simp
    | some m =>
        by_cases hm : m ≤ 0
        · simp only [if_pos hm]
          constructor
          · intro hfalse; exact absurd hfalse (by simp)
          · rintro ⟨m2, hm2, hpos, _⟩
            cases hm2
            omega
        · simp only [if_neg hm]
          cases hc : latestCompletion db e course.id with
          | none =>
              constructor
              · intro hfalse; exact absurd hfalse (by simp)
              · rintro ⟨m2, hm2, hpos, comp, hcomp, _⟩
                cases hm2
                cases hcomp
          | some comp =>
              simp only [decide_eq_true_iff]
              constructor
              · intro hle
                exact ⟨m, rfl, by omega, comp, rfl, hle⟩
              · rintro ⟨m2, hm2, hpos, comp2, hcomp2, hle⟩
                cases hm2
                cases hcomp2
                exact hle
  · intro h
    unfold isTrainingCurrent
    rw [h]
  · intro m h hm
    unfold isTrainingCurrent
    rw [h]
    simp [hm]

/- Claim C7: the document acknowledgment evaluator. -/

/-- Claim C7: hasRequiredAcks is true exactly when every mandatory document of
the lab has an acknowledgment by the engineer at that document's current
version (a stale-version ack never counts since the version must match
exactly), and it is vacuously true when the lab has no mandatory documents. -/
theorem has_required_acks_iff (db : DB) (e l : Int) :
    (hasRequiredAcks db e l = true ↔
      ∀ d ∈ mandatoryDocs db l, ∃ a ∈ db.document_acks,
        a.engineer_id = e ∧ a.document_id = d.id ∧ a.version = d.version)
    ∧ (mandatoryDocs db l = [] → hasRequiredAcks db e l = true) := by
  constructor
  · unfold hasRequiredAcks hasAck
    rw [List.all_eq_true]
    constructor
    · intro h d hd
      have := h d hd
      rw [List.any_eq_true] at this
      obtain ⟨a, ha, hprop⟩ := this
      simp only [Bool.and_eq_true, beq_iff_eq] at hprop
      exact ⟨a, ha, hprop.1.1, hprop.1.2, hprop.2⟩
    · intro h d hd
      obtain ⟨a, ha, h1, h2, h3⟩ := h d hd
      rw [List.any_eq_true]
      refine ⟨a, ha, ?_⟩
      simp [h1, h2, h3]
  · intro h
    unfold hasRequiredAcks
    rw [h]
    rfl

/-- Witness for claim C6: a zero effective validity forces false, and on a store
with a completion taken 2024-01-15 for a 12-month course the evaluator is true
on 2024-06-01, with the characterization instantiated there. -/
theorem is_training_current_witness :
    (isTrainingCurrent dbEmpty 1 ⟨7, "C-1", "Safety", some 12⟩ (some 0) 0 ⟨2024, 6, 1⟩ = false)
    ∧ (∃ m, effectiveMonths none (⟨7, "C-1", "Safety", some 12⟩ : Course) = some m ∧ 0 < m ∧
        ∃ comp, latestCompletion
            { dbEmpty with completions := [⟨1, 7, ⟨2024, 1, 15⟩⟩] } 1 7 = some comp ∧
          toordinal ⟨2024, 6, 1⟩ ≤ toordinal (addMonths comp.date_taken m) + 0) :=
  ⟨(is_training_current_iff dbEmpty 1 ⟨7, "C-1", "Safety", some 12⟩ (some 0) 0
      ⟨2024, 6, 1⟩).2.2 0 (by decide) (by decide),
   (is_training_current_iff { dbEmpty with completions := [⟨1, 7, ⟨2024, 1, 15⟩⟩] } 1
      ⟨7, "C-1", "Safety", some 12⟩ none 0 ⟨2024, 6, 1⟩).1.mp (by decide)⟩

/-- Witness for claim C7: on the empty store lab 1 has no mandatory documents and
the acknowledgment check is vacuously true. -/
theorem has_required_acks_witness :
    mandatoryDocs dbEmpty 1 = [] ∧ hasRequiredAcks dbEmpty 1 1 = true :=
  ⟨by decide, (has_required_acks_iff dbEmpty 1 1).2 (by decide)⟩

/- Lemmas about pairRows and the delete-then-insert step of ensureAccessState. -/

theorem pairRows_append (rows1 rows2 : List LabAccess) (e l : Int) :
    pairRows (rows1 ++ rows2) e l = pairRows rows1 e l ++ pairRows rows2 e l :=
  List.filter_append rows1 rows2

theorem pairRows_of_removed (rows : List LabAccess) (e l : Int) :
    pairRows (rows.filter (fun a => !(a.engineer_id == e && a.lab_id == l))) e l = [] := by
  unfold pairRows
  rw [List.filter_eq_nil_iff]
  intro a ha
  have hmem := (List.mem_filter.1 ha).2
  simp only [Bool.not_eq_true'] at hmem
  simp [hmem]

theorem pairRows_of_removed_ne (rows : List LabAccess) (e l e2 l2 : Int)
    (h : ¬(e2 = e ∧ l2 = l)) :
    pairRows (rows.filter (fun a => !(a.engineer_id == e && a.lab_id == l))) e2 l2
      = pairRows rows e2 l2 := by
  unfold pairRows
  rw [List.filter_filter]
  apply List.filter_congr
  intro a _
  cases h2 : (a.engineer_id == e2 && a.lab_id == l2) with
  | false => simp
  | true =>
      simp only [Bool.and_eq_true, beq_iff_eq] at h2
      have hne : (a.engineer_id == e && a.lab_id == l) = false := by
        rw [Bool.eq_false_iff]
        intro habs
        simp only [Bool.and_eq_true, beq_iff_eq] at habs
        apply h
        constructor
        · rw [← h2.1, habs.1]
        · rw [← h2.2, habs.2]
      rw [hne]
      rfl

theorem pairRows_single_self (e l : Int) (st : AccessStatus) (now : Int) :
    pairRows [⟨e, l, st, none, now⟩] e l = [⟨e, l, st, none, now⟩] := by
  simp [pairRows]

theorem pairRows_single_ne (e l e2 l2 : Int) (st : AccessStatus) (now : Int)
    (h : ¬(e2 = e ∧ l2 = l)) :
    pairRows [⟨e, l, st, none, now⟩] e2 l2 = [] := by
  unfold pairRows
  simp only [List.filter_cons, List.filter_nil]
  rw [if_neg]
  intro habs
  simp only [Bool.and_eq_true, beq_iff_eq] at habs
  exact h ⟨habs.1.symm, habs.2.symm⟩

/- Claim C1: the ensure-state operation. -/

/-- Claim C1 (amended): when a row at exactly the desired (engineer, lab, status)
exists, ensureAccessState returns it and leaves the store untouched, so rows of
the pair at other statuses survive and the pair may keep more than one row;
when no such row exists, every row of the pair is deleted and exactly one fresh
row at the desired status with effective_at = now remains for the pair, all
other pairs being unchanged. -/
theorem ensure_access_state_spec (db : DB) (e l : Int) (st : AccessStatus) (now : Int) :
    (∀ r, findAccess db e l st = some r → ensureAccessState db e l st now = (db, r))
    ∧ (findAccess db e l st = none →
        pairRows (ensureAccessState db e l st now).1.lab_accesses e l
            = [⟨e, l, st, none, now⟩]
        ∧ ∀ e2 l2, ¬(e2 = e ∧ l2 = l) →
            pairRows (ensureAccessState db e l st now).1.lab_accesses e2 l2
              = pairRows db.lab_accesses e2 l2) := by
  constructor
  · intro r hr
    unfold ensureAccessState
    rw [hr]
  · intro hn
    have hrw : (ensureAccessState db e l st now).1.lab_accesses
        = db.lab_accesses.filter (fun a => !(a.engineer_id == e && a.lab_id == l))
          ++ [⟨e, l, st, none, now⟩] := by
      unfold ensureAccessState
      rw [hn]
    constructor
    · rw [hrw, pairRows_append, pairRows_of_removed, pairRows_single_self]
      rfl
    · intro e2 l2 h
      rw [hrw, pairRows_append, pairRows_of_removed_ne db.lab_accesses e l e2 l2 h,
        pairRows_single_ne e l e2 l2 st now h, List.append_nil]

/-- Counterexample to claim C1 as stated: on a store where the pair (1, 1) has
both a pending and a revoked row, ensureAccessState with desired status pending
returns the existing pending row and leaves the store untouched, so two rows for
the pair remain, not at most one. -/
theorem ensure_access_state_counterexample :
    (ensureAccessState dbC1 1 1 AccessStatus.pending 5).1 = dbC1
    ∧ (pairRows (ensureAccessState dbC1 1 1 AccessStatus.pending 5).1.lab_accesses 1 1).length = 2 := by
  decide

/-- Witness for claim C1: on the two-row store, ensuring status active (which no
row has) deletes both rows of the pair and leaves exactly the fresh active row. -/
theorem ensure_access_state_witness :
    findAccess dbC1 1 1 AccessStatus.active = none
    ∧ pairRows (ensureAccessState dbC1 1 1 AccessStatus.active 5).1.lab_accesses 1 1
        = [⟨1, 1, AccessStatus.active, none, 5⟩] :=
  ⟨by decide,
   ((ensure_access_state_spec dbC1 1 1 AccessStatus.active 5).2 (by decide)).1⟩

/- Lemmas about the unique-key invariant and commits. -/

theorem accessKey_eq_of_pred (a : LabAccess) (e l : Int) (st : AccessStatus)
    (h : (a.engineer_id == e && a.lab_id == l && a.status == st) = true) :
    accessKey a = (e, l, st) := by
  simp only [Bool.and_eq_true, beq_iff_eq] at h
  unfold accessKey
  rw [h.1.1, h.1.2, h.2]

theorem append_key_nodup (rows : List LabAccess) (la : LabAccess)
    (hnodup : (rows.map accessKey).Nodup)
    (hfresh : ∀ a ∈ rows, accessKey a ≠ accessKey la) :
    ((rows ++ [la]).map accessKey).Nodup := by
  rw [List.map_append, List.nodup_append]
  refine ⟨hnodup, by simp, ?_⟩
  intro k hk hk2
  simp only [List.map_cons, List.map_nil, List.mem_singleton] at hk2
  obtain ⟨a, ha, hka⟩ := List.mem_map.1 hk
  exact hfresh a ha (by rw [hka, hk2])

theorem append_key_not_nodup (rows : List LabAccess) (la p : LabAccess)
    (hp : p ∈ rows) (hkey : accessKey p = accessKey la) :
    ¬ ((rows ++ [la]).map accessKey).Nodup := by
  intro habs
  rw [List.map_append, List.nodup_append] at habs
  exact habs.2.2 (List.mem_map_of_mem accessKey hp) (by simp [hkey])

theorem commitDB_ok (db : DB) (h : (db.lab_accesses.map accessKey).Nodup) :
    commitDB db = Except.ok db := by
  unfold commitDB
  rw [if_pos h]

theorem ensure_key_nodup (db : DB) (e l : Int) (st : AccessStatus) (now : Int)
    (h : (db.lab_accesses.map accessKey).Nodup) :
    ((ensureAccessState db e l st now).1.lab_accesses.map accessKey).Nodup := by
  cases hf : findAccess db e l st with
  | some r =>
      have hrw : (ensureAccessState db e l st now).1 = db := by
        unfold ensureAccessState
        rw [hf]
      rw [hrw]
      exact h
  | none =>
      have hrw : (ensureAccessState db e l st now).1.lab_accesses
          = db.lab_accesses.filter (fun a => !(a.engineer_id == e && a.lab_id == l))
            ++ [⟨e, l, st, none, now⟩] := by
        unfold ensureAccessState
        rw [hf]
      rw [hrw]
      apply append_key_nodup
      · exact List.Nodup.sublist (List.Sublist.map accessKey (List.filter_sublist _)) h
      · intro a ha habs
        have hmem := (List.mem_filter.1 ha).2
        unfold accessKey at habs
        simp only [Prod.mk.injEq] at habs
        simp [habs.1, habs.2.1] at hmem

theorem updateFirstBy_split {α : Type} (p : α → Bool) (f : α → α) (l : List α) (x : α)
    (hx : l.find? p = some x) :
    ∃ l1 l2, l = l1 ++ x :: l2 ∧ (∀ y ∈ l1, p y = false) ∧ p x = true ∧
      updateFirstBy p f l = l1 ++ f x :: l2 := by
  induction l with
  | nil => cases hx
  | cons hd tl ih =>
      cases hp : p hd with
      | true =>
          rw [List.find?_cons_of_pos tl hp] at hx
          cases hx
          refine ⟨[], tl, rfl, by simp, hp, ?_⟩
          simp [updateFirstBy, hp]
      | false =>
          rw [List.find?_cons_of_neg tl (by simp [hp])] at hx
          obtain ⟨l1, l2, heq, hl1, hpx, hupd⟩ := ih hx
          refine ⟨hd :: l1, l2, by rw [List.cons_append, ← heq], ?_, hpx, ?_⟩
          · intro y hy
            rcases List.mem_cons.1 hy with h1 | h2
            · rw [h1]; exact hp
            · exact hl1 y h2
          · simp [updateFirstBy, hp, hupd]

theorem filter_nil_of_all_false {α : Type} (p : α → Bool) (l : List α)
    (h : ∀ y ∈ l, p y = false) : l.filter p = [] := by
  rw [List.filter_eq_nil_iff]
  intro a ha
  rw [h a ha]
  simp

theorem filter_not_of_all_false {α : Type} (p : α → Bool) (l : List α)
    (h : ∀ y ∈ l, p y = false) : l.filter (fun a => !(p a)) = l := by
  rw [List.filter_eq_self]
  intro a ha
  rw [h a ha]
  rfl

/- Claim C3: not-found handling across the operations. -/

/-- Claim C3 (amended): request_access on a missing engineer or missing lab fails
with a distinct not-found signal and no state change; but approve and revoke
perform no existence check at all: a missing lab merely makes the compliance
verdict false, so approve still ensures a pending row for the pair, and revoke
unconditionally ensures a revoked row and commits successfully, so both mutate
the LabAccess table even for nonexistent engineers and labs. -/
theorem not_found_handling (db : DB) (e l now : Int) (asof : PyDate) :
    (e ≠ 0 → l ≠ 0 → getEngineer db e = none →
        requestAccess db (some e) (some l) now = Except.error OpError.engineerNotFound)
    ∧ (e ≠ 0 → l ≠ 0 → (getEngineer db e).isSome = true → getLab db l = none →
        requestAccess db (some e) (some l) now = Except.error OpError.labNotFound)
    ∧ (getLab db l = none → isCompliantForLab db e l asof = false)
    ∧ (getLab db l = none →
        approve db e l asof now
          = commitDB (ensureAccessState db e l AccessStatus.pending now).1)
    ∧ ((db.lab_accesses.map accessKey).Nodup →
        revoke db e l now = Except.ok (ensureAccessState db e l AccessStatus.revoked now).1) := by
  have hcomp : getLab db l = none → isCompliantForLab db e l asof = false := by
    intro h
    unfold isCompliantForLab
    rw [h]
  refine ⟨?_, ?_, hcomp, ?_, ?_⟩
  · intro he hl heng
    have hguard : ((some e : Option Int).getD 0 == 0 || (some l : Option Int).getD 0 == 0) = false := by
      simp only [Option.getD_some, Bool.or_eq_false_iff]
      exact ⟨beq_eq_false_iff_ne.2 he, beq_eq_false_iff_ne.2 hl⟩
    unfold requestAccess
    simp only [Option.getD_some] at hguard ⊢
    rw [hguard]
    simp only [Bool.false_eq_true, if_false]
    rw [heng]
  · intro he hl heng hlab
    obtain ⟨eng, heng2⟩ := Option.isSome_iff_exists.1 heng
    have hguard : ((some e : Option Int).getD 0 == 0 || (some l : Option Int).getD 0 == 0) = false := by
      simp only [Option.getD_some, Bool.or_eq_false_iff]
      exact ⟨beq_eq_false_iff_ne.2 he, beq_eq_false_iff_ne.2 hl⟩
    unfold requestAccess
    simp only [Option.getD_some] at hguard ⊢
    rw [hguard]
    simp only [Bool.false_eq_true, if_false]
    rw [heng2, hlab]
  · intro hlab
    unfold approve
    rw [hcomp hlab]
    simp only [Bool.false_eq_true, if_false]
  · intro hnodup
    unfold revoke
    exact commitDB_ok _ (ensure_key_nodup db e l AccessStatus.revoked now hnodup)

/-- Counterexample to claim C3 as stated: on the empty store, where neither
engineer 1 nor lab 1 exists, approve inserts a pending LabAccess row and revoke
inserts a revoked one, so neither operation leaves the LabAccess table unchanged
nor signals a not-found condition. -/
theorem not_found_counterexample :
    getEngineer dbEmpty 1 = none
    ∧ getLab dbEmpty 1 = none
    ∧ approve dbEmpty 1 1 ⟨2024, 1, 1⟩ 3
        = Except.ok { dbEmpty with lab_accesses := [⟨1, 1, AccessStatus.pending, none, 3⟩] }
    ∧ revoke dbEmpty 1 1 3
        = Except.ok { dbEmpty with lab_accesses := [⟨1, 1, AccessStatus.revoked, none, 3⟩] } := by
  decide

/-- Witness for claim C3: request_access signals engineer-not-found on the empty
store and lab-not-found when only the engineer exists. -/
theorem not_found_witness :
    requestAccess dbEmpty (some 1) (some 1) 9 = Except.error OpError.engineerNotFound
    ∧ requestAccess { dbEmpty with engineers := [eng1] } (some 1) (some 1) 9
        = Except.error OpError.labNotFound :=
  ⟨(not_found_handling dbEmpty 1 1 9 ⟨2024, 1, 1⟩).1 (by decide) (by decide) (by decide),
   (not_found_handling { dbEmpty with engineers := [eng1] } 1 1 9 ⟨2024, 1, 1⟩).2.1
     (by decide) (by decide) (by decide) (by decide)⟩

/- Claim C4: the request-access operation. -/

/-- Claim C4 (amended): request_access on an existing engineer and lab does not
query existing LabAccess rows and simply inserts a fresh pending row with reason
code requested and effective_at = now; but the unique (engineer, lab, status)
constraint makes the commit fail with a constraint violation whenever a pending
row for the pair already exists, so multiple pending rows for the same pair can
never accumulate. -/
theorem request_access_spec (db : DB) (e l now : Int) (he : e ≠ 0) (hl : l ≠ 0)
    (heng : (getEngineer db e).isSome = true) (hlab : (getLab db l).isSome = true) :
    (findAccess db e l AccessStatus.pending = none →
        (db.lab_accesses.map accessKey).Nodup →
        requestAccess db (some e) (some l) now
          = Except.ok { db with lab_accesses := db.lab_accesses ++
              [⟨e, l, AccessStatus.pending, some ("requested"), now⟩] })
    ∧ (∀ p, findAccess db e l AccessStatus.pending = some p →
        requestAccess db (some e) (some l) now = Except.error OpError.integrityError) := by
  obtain ⟨eng, heng2⟩ := Option.isSome_iff_exists.1 heng
  obtain ⟨lab, hlab2⟩ := Option.isSome_iff_exists.1 hlab
  have hguard : ((some e : Option Int).getD 0 == 0 || (some l : Option Int).getD 0 == 0) = false := by
    simp only [Option.getD_some, Bool.or_eq_false_iff]
    exact ⟨beq_eq_false_iff_ne.2 he, beq_eq_false_iff_ne.2 hl⟩
  have hrw : requestAccess db (some e) (some l) now
      = commitDB { db with lab_accesses := db.lab_accesses ++
          [⟨e, l, AccessStatus.pending, some ("requested"), now⟩] } := by
    unfold requestAccess
    simp only [Option.getD_some] at hguard ⊢
    rw [hguard]
    simp only [Bool.false_eq_true, if_false]
    rw [heng2, hlab2]
  constructor
  · intro hnone hnodup
    rw [hrw]
    unfold commitDB
    rw [if_pos]
    apply append_key_nodup db.lab_accesses _ hnodup
    intro a ha habs
    unfold findAccess at hnone
    rw [List.find?_eq_none] at hnone
    apply hnone a ha
    unfold accessKey at habs
    simp only [Prod.mk.injEq] at habs
    simp [habs.1, habs.2.1, habs.2.2]
  · intro p hp
    unfold findAccess at hp
    rw [hrw]
    unfold commitDB
    rw [if_neg]
    apply append_key_not_nodup db.lab_accesses _ p (List.mem_of_find?_eq_some hp)
    have h0 := List.find?_some hp
    simp only [Bool.and_eq_true, beq_iff_eq] at h0
    unfold accessKey
    rw [h0.1.1, h0.1.2, h0.2]

/-- Counterexample to claim C4 as stated: on a store where the pair (1, 1)
already holds a pending row, a further request_access does not create a second
pending row but fails with a constraint violation, so pending rows cannot
accumulate for a pair. -/
theorem request_access_counterexample :
    requestAccess dbC4 (some 1) (some 1) 7 = Except.error OpError.integrityError
    ∧ (pendingFor dbC4 1 1).length = 1 := by
  decide

/-- Witness for claim C4: on a store with engineer 1 and lab 1 and no access
rows, request_access inserts exactly the fresh pending row with reason
requested. -/
theorem request_access_witness :
    requestAccess dbRA (some 1) (some 1) 7
      = Except.ok { dbRA with
          lab_accesses := [⟨1, 1, AccessStatus.pending, some ("requested"), 7⟩] } :=
  (request_access_spec dbRA 1 1 7
      (by decide) (by decide) (by decide) (by decide)).1 (by decide) (by decide)

/- Claim C5: the compliance decision engine. -/

/-- Claim C5: isCompliantForLab is false when the lab does not exist or any
requirement's course reference is dangling; when the lab exists it is true
exactly when every requirement's course resolves and is current (using the
requirement override and the lab's grace days) and the document-acknowledgment
check passes; a lab with zero requirements and zero mandatory documents is
vacuously compliant. -/
theorem is_compliant_for_lab_spec (db : DB) (e l : Int) (asof : PyDate) :
    (getLab db l = none → isCompliantForLab db e l asof = false)
    ∧ (∀ r ∈ labRequirementsFor db l, getCourse db r.course_id = none →
        isCompliantForLab db e l asof = false)
    ∧ (∀ lab, getLab db l = some lab →
        (isCompliantForLab db e l asof = true ↔
          ((∀ r ∈ labRequirementsFor db l, ∃ c, getCourse db r.course_id = some c ∧
              isTrainingCurrent db e c r.valid_months lab.grace_days asof = true)
            ∧ hasRequiredAcks db e l = true)))
    ∧ (∀ lab, getLab db l = some lab → labRequirementsFor db l = [] →
        mandatoryDocs db l = [] → isCompliantForLab db e l asof = true) := by
  refine ⟨?_, ?_, ?_, ?_⟩
  · intro h
    unfold isCompliantForLab
    rw [h]
  · intro r hr hrc
    cases hlab : getLab db l with
    | none => unfold isCompliantForLab; rw [hlab]
    | some lab =>
        rw [Bool.eq_false_iff]
        intro habs
        unfold isCompliantForLab at habs
        rw [hlab] at habs
        rw [Bool.and_eq_true, List.all_eq_true] at habs
        have := habs.1 r hr
        rw [hrc] at this
        simp at this
  · intro lab hlab
    unfold isCompliantForLab
    rw [hlab]
    rw [Bool.and_eq_true, List.all_eq_true]
    constructor
    · rintro ⟨hall, hacks⟩
      refine ⟨?_, hacks⟩
      intro r hr
      have := hall r hr
      cases hc : getCourse db r.course_id with
      | none => rw [hc] at this; simp at this
      | some c =>
          rw [hc] at this
          exact ⟨c, rfl, this⟩
    · rintro ⟨hall, hacks⟩
      refine ⟨?_, hacks⟩
      intro r hr
      obtain ⟨c, hc, hcur⟩ := hall r hr
      rw [hc]
      exact hcur
  · intro lab hlab hreq hdocs
    unfold isCompliantForLab
    rw [hlab, hreq]
    unfold hasRequiredAcks
    rw [hdocs]
    rfl

/-- Witness for claim C5: lab 1 exists in a store with no requirements and no
documents, so engineer 1 is vacuously compliant, while the nonexistent lab 2
yields false. -/
theorem is_compliant_for_lab_witness :
    getLab { dbEmpty with labs := [lab1] } 1 = some lab1
    ∧ isCompliantForLab { dbEmpty with labs := [lab1] } 1 1 ⟨2024, 1, 1⟩ = true
    ∧ getLab { dbEmpty with labs := [lab1] } 2 = none
    ∧ isCompliantForLab { dbEmpty with labs := [lab1] } 1 2 ⟨2024, 1, 1⟩ = false :=
  ⟨by decide,
   (is_compliant_for_lab_spec { dbEmpty with labs := [lab1] } 1 1 ⟨2024, 1, 1⟩).2.2.2
     lab1 (by decide) (by decide) (by decide),
   by decide,
   (is_compliant_for_lab_spec { dbEmpty with labs := [lab1] } 1 2 ⟨2024, 1, 1⟩).1
     (by decide)⟩

/- Claim C9: the metrics snapshot upsert. -/

theorem metricsKey_eq_of_pred (r : LabMetrics) (lid : Int) (asof : PyDate)
    (h : (r.lab_id == lid && r.asof == asof) = true) : metricsKey r = (lid, asof) := by
  simp only [Bool.and_eq_true, beq_iff_eq] at h
  unfold metricsKey
  rw [h.1, h.2]

/-- Claim C9: save_metrics clamps each of utilization, condition and activity
into the range 0 to 100 and upserts the single LabMetrics row keyed by
(lab, as-of date): afterwards exactly one row for that key exists and holds the
clamped values, every other row is unchanged, and nothing outside lab_metrics is
touched. -/
theorem save_metrics_spec (db : DB) (lid u c a : Int) (asof : PyDate)
    (h : (db.lab_metrics.map metricsKey).Nodup) :
    ((saveMetrics db lid u c a asof).lab_metrics.filter
        (fun r => r.lab_id == lid && r.asof == asof))
      = [⟨lid, asof, clampPct u, clampPct c, clampPct a⟩]
    ∧ ((saveMetrics db lid u c a asof).lab_metrics.filter
        (fun r => !(r.lab_id == lid && r.asof == asof)))
      = db.lab_metrics.filter (fun r => !(r.lab_id == lid && r.asof == asof))
    ∧ (∀ v : Int, 0 ≤ clampPct v ∧ clampPct v ≤ 100)
    ∧ saveMetrics db lid u c a asof
      = { db with lab_metrics := (saveMetrics db lid u c a asof).lab_metrics } := by
  have hclamp : ∀ v : Int, 0 ≤ clampPct v ∧ clampPct v ≤ 100 := by
    intro v
    unfold clampPct
    constructor <;> omega
  cases hf : db.lab_metrics.find? (fun r => r.lab_id == lid && r.asof == asof) with
  | none =>
      have hrw : (saveMetrics db lid u c a asof).lab_metrics
          = db.lab_metrics ++ [⟨lid, asof, clampPct u, clampPct c, clampPct a⟩] := by
        unfold saveMetrics
        rw [hf]
      have h4 : saveMetrics db lid u c a asof
          = { db with lab_metrics := (saveMetrics db lid u c a asof).lab_metrics } := by
        unfold saveMetrics
        rw [hf]
      have hnone : ∀ r ∈ db.lab_metrics, (r.lab_id == lid && r.asof == asof) = false := by
        rw [List.find?_eq_none] at hf
        intro r hr
        have h2 := hf r hr
        simp only [Bool.not_eq_true] at h2
        exact h2
      refine ⟨?_, ?_, hclamp, h4⟩
      · rw [hrw, List.filter_append, filter_nil_of_all_false _ _ hnone]
        simp
      · rw [hrw, List.filter_append]
        simp
  | some r0 =>
      obtain ⟨l1, l2, heq, hl1, hpr0, hupd⟩ := updateFirstBy_split
        (fun r => r.lab_id == lid && r.asof == asof)
        (metricsUpd (clampPct u) (clampPct c) (clampPct a))
        db.lab_metrics r0 hf
      have hrw : (saveMetrics db lid u c a asof).lab_metrics
          = updateFirstBy (fun r => r.lab_id == lid && r.asof == asof)
              (metricsUpd (clampPct u) (clampPct c) (clampPct a)) db.lab_metrics := by
        unfold saveMetrics
        rw [hf]
      have h4 : saveMetrics db lid u c a asof
          = { db with lab_metrics := (saveMetrics db lid u c a asof).lab_metrics } := by
        unfold saveMetrics
        rw [hf]
      have hkey : r0.lab_id = lid ∧ r0.asof = asof := by
        simpa only [Bool.and_eq_true, beq_iff_eq] using hpr0
      have hupdval : metricsUpd (clampPct u) (clampPct c) (clampPct a) r0
          = ⟨lid, asof, clampPct u, clampPct c, clampPct a⟩ := by
        cases r0 with
        | mk lb asf ut cd av =>
            simp only at hkey
            unfold metricsUpd
            rw [show lb = lid from hkey.1, show asf = asof from hkey.2]
      have hl2 : ∀ r ∈ l2, (r.lab_id == lid && r.asof == asof) = false := by
        intro r hr
        cases hpred : (r.lab_id == lid && r.asof == asof) with
        | false => rfl
        | true =>
            exfalso
            rw [heq, List.map_append, List.nodup_append] at h
            have h2 := h.2.1
            rw [List.map_cons, List.nodup_cons] at h2
            apply h2.1
            rw [metricsKey_eq_of_pred r0 lid asof hpr0]
            rw [← metricsKey_eq_of_pred r lid asof hpred]
            exact List.mem_map_of_mem metricsKey hr
      refine ⟨?_, ?_, hclamp, h4⟩
      · rw [hrw, hupd, List.filter_append, filter_nil_of_all_false _ _ hl1,
          List.filter_cons]
        rw [if_pos (by rw [hupdval]; simp)]
        rw [filter_nil_of_all_false _ _ hl2, hupdval]
        rfl
      · rw [hrw, hupd, heq, List.filter_append, List.filter_append, List.filter_cons,
          List.filter_cons]
        rw [if_neg (by rw [hupdval]; simp), if_neg (by rw [hpr0]; simp)]

/-- Witness for claim C9: overwriting the existing snapshot of lab 1 for
2024-01-01 with out-of-range inputs leaves exactly one clamped row for the key. -/
theorem save_metrics_witness :
    ((saveMetrics dbC9 1 250 (-7) 55 ⟨2024, 1, 1⟩).lab_metrics.filter
        (fun r => r.lab_id == 1 && r.asof == ⟨2024, 1, 1⟩))
      = [⟨1, ⟨2024, 1, 1⟩, 100, 0, 55⟩] :=
  (save_metrics_spec dbC9 1 250 (-7) 55 ⟨2024, 1, 1⟩ (by decide)).1

/- Claim C10: cancel_request on a pair that also has a revoked row. -/

theorem mostRecent_mem : ∀ (lst : List LabAccess) (x : LabAccess),
    mostRecent lst = some x → x ∈ lst := by
  intro lst
  induction lst with
  | nil => intro x hx; cases hx
  | cons hd tl ih =>
      intro x hx
      unfold mostRecent at hx
      cases hmr : mostRecent tl with
      | none =>
          rw [hmr] at hx
          dsimp only at hx
          cases hx
          exact List.mem_cons_self hd tl
      | some b =>
          rw [hmr] at hx
          dsimp only at hx
          by_cases hcmp : hd.effective_at < b.effective_at
          · rw [if_pos hcmp] at hx
            cases hx
            exact List.mem_cons_of_mem hd (ih x hmr)
          · rw [if_neg hcmp] at hx
            cases hx
            exact List.mem_cons_self hd tl

theorem mostRecent_isSome (hd : LabAccess) (tl : List LabAccess) :
    (mostRecent (hd :: tl)).isSome = true := by
  unfold mostRecent
  cases hmr : mostRecent tl with
  | none => rfl
  | some b =>
      dsimp only
      by_cases hcmp : hd.effective_at < b.effective_at
      · rw [if_pos hcmp]; rfl
      · rw [if_neg hcmp]; rfl

theorem find?_beq_self : ∀ (lst : List LabAccess) (x : LabAccess), x ∈ lst →
    lst.find? (fun a => a == x) = some x := by
  intro lst
  induction lst with
  | nil => intro x hx; cases hx
  | cons hd tl ih =>
      intro x hx
      by_cases hhd : hd = x
      · rw [List.find?_cons_of_pos tl (by rw [hhd]; simp)]
        rw [hhd]
      · rw [List.find?_cons_of_neg tl (by simp [hhd])]
        rcases List.mem_cons.1 hx with h1 | h2
        · exact absurd h1.symm hhd
        · exact ih x h2

/-- Claim C10: when the pair has both a pending and a revoked LabAccess row,
cancel_request flips the most recent pending row to revoked in place, which
collides with the existing revoked row under the unique (engineer, lab, status)
constraint, so the commit fails with a constraint violation, the transaction is
rolled back, and the pending row remains pending. -/
theorem cancel_request_conflict (db : DB) (e l now : Int) (he : e ≠ 0) (hl : l ≠ 0)
    (p : LabAccess) (hpend : findAccess db e l AccessStatus.pending = some p)
    (r : LabAccess) (hrev : findAccess db e l AccessStatus.revoked = some r) :
    cancelRequest db (some e) (some l) now = Except.error OpError.integrityError := by
  unfold findAccess at hpend hrev
  have hpmem : p ∈ db.lab_accesses := List.mem_of_find?_eq_some hpend
  have hppred := List.find?_some hpend
  simp only [Bool.and_eq_true, beq_iff_eq] at hppred
  have hrmem : r ∈ db.lab_accesses := List.mem_of_find?_eq_some hrev
  have hrpred := List.find?_some hrev
  simp only [Bool.and_eq_true, beq_iff_eq] at hrpred
  have hpfmem : p ∈ pendingFor db e l := by
    unfold pendingFor
    apply List.mem_filter.2
    refine ⟨hpmem, ?_⟩
    simp [hppred.1.1, hppred.1.2, hppred.2]
  have hne : pendingFor db e l ≠ [] := by
    intro habs
    rw [habs] at hpfmem
    cases hpfmem
  obtain ⟨row, hmr⟩ : ∃ row, mostRecent (pendingFor db e l) = some row := by
    cases hpf : pendingFor db e l with
    | nil => exact absurd hpf hne
    | cons hd tl => exact Option.isSome_iff_exists.1 (mostRecent_isSome hd tl)
  have hrowmem : row ∈ pendingFor db e l := mostRecent_mem _ row hmr
  have hrowmem2 : row ∈ db.lab_accesses := (List.mem_filter.1 hrowmem).1
  have hrowpred := (List.mem_filter.1 hrowmem).2
  simp only [Bool.and_eq_true, beq_iff_eq] at hrowpred
  have hguard : ((some e : Option Int).getD 0 == 0 || (some l : Option Int).getD 0 == 0) = false := by
    simp only [Option.getD_some, Bool.or_eq_false_iff]
    exact ⟨beq_eq_false_iff_ne.2 he, beq_eq_false_iff_ne.2 hl⟩
  have hfind : db.lab_accesses.find? (fun a => a == row) = some row :=
    find?_beq_self db.lab_accesses row hrowmem2
  obtain ⟨l1, l2, heq, hl1, _, hupd⟩ := updateFirstBy_split (fun a => a == row)
    (cancelUpd now) db.lab_accesses row hfind
  have hrw : cancelRequest db (some e) (some l) now
      = commitDB { db with
          lab_accesses := updateFirstBy (fun a => a == row) (cancelUpd now) db.lab_accesses } := by
    unfold cancelRequest
    simp only [Option.getD_some] at hguard ⊢
    rw [hguard]
    simp only [Bool.false_eq_true, if_false]
    rw [hmr]
  have hrne : r ≠ row := by
    intro habs
    rw [habs] at hrpred
    rw [hrowpred.2] at hrpred
    cases hrpred.2
  have hkeyupd : accessKey (cancelUpd now row) = (e, l, AccessStatus.revoked) := by
    unfold accessKey cancelUpd
    simp only
    rw [hrowpred.1.1, hrowpred.1.2]
  have hkeyr : accessKey r = (e, l, AccessStatus.revoked) := by
    unfold accessKey
    rw [hrpred.1.1, hrpred.1.2, hrpred.2]
  have hnotnodup : ¬ ((updateFirstBy (fun a => a == row)
      (cancelUpd now) db.lab_accesses).map accessKey).Nodup := by
    rw [hupd]
    intro habs
    rw [List.map_append, List.nodup_append] at habs
    have hrsplit : r ∈ l1 ∨ r ∈ l2 := by
      rw [heq] at hrmem
      rcases List.mem_append.1 hrmem with h1 | h2
      · exact Or.inl h1
      · rcases List.mem_cons.1 h2 with h3 | h4
        · exact absurd h3 hrne
        · exact Or.inr h4
    rcases hrsplit with h1 | h2
    · exact habs.2.2 (List.mem_map_of_mem accessKey h1)
        (by rw [hkeyr, List.map_cons, ← hkeyupd]; exact List.mem_cons_self _ _)
    · have hhead := (List.nodup_cons.1 (by rw [List.map_cons] at habs; exact habs.2.1)).1
      apply hhead
      rw [hkeyupd, ← hkeyr]
      exact List.mem_map_of_mem accessKey h2
  rw [hrw]
  unfold commitDB
  rw [if_neg hnotnodup]

/-- Witness for claim C10: on the store whose pair (1, 1) has a pending and a
revoked row, cancel_request fails with the constraint violation. -/
theorem cancel_request_witness :
    cancelRequest dbC1 (some 1) (some 1) 9 = Except.error OpError.integrityError :=
  cancel_request_conflict dbC1 1 1 9 (by decide) (by decide)
    ⟨1, 1, AccessStatus.pending, none, 0⟩ (by decide)
    ⟨1, 1, AccessStatus.revoked, none, 0⟩ (by decide)

/- Claim C2: the autocheck sweep. Helper lemmas first: the loop only ever edits
lab_accesses, compliance ignores lab_accesses, and under the one-row-per-pair
invariant each ensure step rewrites exactly its own pair. -/

theorem isCompliant_update (db : DB) (rows : List LabAccess) (e l : Int) (asof : PyDate) :
    isCompliantForLab { db with lab_accesses := rows } e l asof
      = isCompliantForLab db e l asof := rfl

theorem update_trans (db0 dbc : DB) (h : dbc = { db0 with lab_accesses := dbc.lab_accesses })
    (rows : List LabAccess) :
    ({ dbc with lab_accesses := rows } : DB) = { db0 with lab_accesses := rows } := by
  rw [h]

theorem ensure_of_find_some (db : DB) (e l : Int) (st : AccessStatus) (now : Int)
    (r : LabAccess) (hr : findAccess db e l st = some r) :
    ensureAccessState db e l st now = (db, r) := by
  unfold ensureAccessState
  rw [hr]

theorem ensure_rows_of_find_none (db : DB) (e l : Int) (st : AccessStatus) (now : Int)
    (hn : findAccess db e l st = none) :
    (ensureAccessState db e l st now).1.lab_accesses
      = db.lab_accesses.filter (fun a => !(a.engineer_id == e && a.lab_id == l))
        ++ [⟨e, l, st, none, now⟩] := by
  unfold ensureAccessState
  rw [hn]

theorem ensure_shape (db : DB) (e l : Int) (st : AccessStatus) (now : Int) :
    (ensureAccessState db e l st now).1
      = { db with lab_accesses := (ensureAccessState db e l st now).1.lab_accesses } := by
  cases hf : findAccess db e l st with
  | some r => rw [ensure_of_find_some db e l st now r hf]
  | none =>
      unfold ensureAccessState
      rw [hf]

theorem ensure_pair_nodup (db : DB) (e l : Int) (st : AccessStatus) (now : Int)
    (h : (pairKeys db.lab_accesses).Nodup) :
    (pairKeys (ensureAccessState db e l st now).1.lab_accesses).Nodup := by
  cases hf : findAccess db e l st with
  | some r =>
      have hrw : (ensureAccessState db e l st now).1 = db := by
        rw [ensure_of_find_some db e l st now r hf]
      rw [hrw]
      exact h
  | none =>
      rw [ensure_rows_of_find_none db e l st now hf]
      unfold pairKeys
      rw [List.map_append, List.nodup_append]
      refine ⟨?_, by simp, ?_⟩
      · exact List.Nodup.sublist (List.Sublist.map _ (List.filter_sublist _)) h
      · intro k hk hk2
        simp only [List.map_cons, List.map_nil, List.mem_singleton] at hk2
        obtain ⟨x, hx, hkx⟩ := List.mem_map.1 hk
        have hmem := (List.mem_filter.1 hx).2
        rw [hk2] at hkx
        simp only [Prod.mk.injEq] at hkx
        simp [hkx.1, hkx.2] at hmem

theorem key_nodup_of_pair_nodup (rows : List LabAccess)
    (h : (pairKeys rows).Nodup) : (rows.map accessKey).Nodup := by
  have heq : pairKeys rows
      = (rows.map accessKey).map (fun k => (k.1, k.2.1)) := by
    unfold pairKeys accessKey
    rw [List.map_map]
    rfl
  rw [heq] at h
  exact List.Nodup.of_map _ h

theorem filter_pair_eq_single (rows : List LabAccess) (a : LabAccess)
    (ha : a ∈ rows) (h : (pairKeys rows).Nodup) :
    pairRows rows a.engineer_id a.lab_id = [a] := by
  induction rows with
  | nil => cases ha
  | cons hd tl ih =>
      unfold pairKeys at h
      rw [List.map_cons, List.nodup_cons] at h
      rcases List.mem_cons.1 ha with h1 | h2
      · subst h1
        unfold pairRows
        rw [List.filter_cons, if_pos (by simp)]
        rw [filter_nil_of_all_false]
        intro y hy
        cases hyp : (y.engineer_id == a.engineer_id && y.lab_id == a.lab_id) with
        | false => rfl
        | true =>
            exfalso
            apply h.1
            simp only [Bool.and_eq_true, beq_iff_eq] at hyp
            rw [← hyp.1, ← hyp.2]
            exact List.mem_map_of_mem _ hy
      · have hne : (hd.engineer_id == a.engineer_id && hd.lab_id == a.lab_id) = false := by
          cases hyp : (hd.engineer_id == a.engineer_id && hd.lab_id == a.lab_id) with
          | false => rfl
          | true =>
              exfalso
              apply h.1
              simp only [Bool.and_eq_true, beq_iff_eq] at hyp
              rw [hyp.1, hyp.2]
              exact List.mem_map_of_mem _ h2
        unfold pairRows
        rw [List.filter_cons, if_neg (by simp [hne])]
        exact ih h2 h.2

theorem findAccess_none_of_status_ne (db : DB) (e l : Int) (st : AccessStatus)
    (a : LabAccess) (hrows : pairRows db.lab_accesses e l = [a]) (hne : a.status ≠ st) :
    findAccess db e l st = none := by
  unfold findAccess
  rw [List.find?_eq_none]
  intro x hx hpred
  simp only [Bool.and_eq_true, beq_iff_eq] at hpred
  have hxmem : x ∈ pairRows db.lab_accesses e l := by
    unfold pairRows
    exact List.mem_filter.2 ⟨hx, by simp [hpred.1.1, hpred.1.2]⟩
  rw [hrows, List.mem_singleton] at hxmem
  exact hne (hxmem ▸ hpred.2)

theorem autocheckStep_activate (db : DB) (asof : PyDate) (now : Int) (e l : Int)
    (st : AccessStatus)
    (h1 : (st == AccessStatus.pending && isCompliantForLab db e l asof) = true) :
    autocheckStep db asof now e l st
      = ((ensureAccessState db e l AccessStatus.active now).1, 1, 0) := by
  simp only [autocheckStep]
  rw [if_pos h1]

theorem autocheckStep_revoke (db : DB) (asof : PyDate) (now : Int) (e l : Int)
    (st : AccessStatus)
    (h1 : ¬ (st == AccessStatus.pending && isCompliantForLab db e l asof) = true)
    (h2 : (st == AccessStatus.active && !isCompliantForLab db e l asof) = true) :
    autocheckStep db asof now e l st
      = ((ensureAccessState db e l AccessStatus.revoked now).1, 0, 1) := by
  simp only [autocheckStep]
  rw [if_neg h1, if_pos h2]

theorem autocheckStep_noop (db : DB) (asof : PyDate) (now : Int) (e l : Int)
    (st : AccessStatus)
    (h1 : ¬ (st == AccessStatus.pending && isCompliantForLab db e l asof) = true)
    (h2 : ¬ (st == AccessStatus.active && !isCompliantForLab db e l asof) = true) :
    autocheckStep db asof now e l st = (db, 0, 0) := by
  simp only [autocheckStep]
  rw [if_neg h1, if_neg h2]

theorem autocheckLoop_cons (asof : PyDate) (now : Int) (db : DB)
    (e l : Int) (st : AccessStatus) (rest : List (Int × Int × AccessStatus)) :
    autocheckLoop asof now db ((e, l, st) :: rest)
      = ((autocheckLoop asof now (autocheckStep db asof now e l st).1 rest).1,
         (autocheckStep db asof now e l st).2.1
           + (autocheckLoop asof now (autocheckStep db asof now e l st).1 rest).2.1,
         (autocheckStep db asof now e l st).2.2
           + (autocheckLoop asof now (autocheckStep db asof now e l st).1 rest).2.2) := rfl

theorem step_ensure_facts (db0 dbc : DB) (e l : Int) (newSt : AccessStatus) (now : Int)
    (hOff : dbc = { db0 with lab_accesses := dbc.lab_accesses })
    (hnd : (pairKeys dbc.lab_accesses).Nodup)
    (hfa : findAccess dbc e l newSt = none) :
    ((ensureAccessState dbc e l newSt now).1
        = { db0 with lab_accesses := (ensureAccessState dbc e l newSt now).1.lab_accesses })
    ∧ (pairKeys (ensureAccessState dbc e l newSt now).1.lab_accesses).Nodup
    ∧ pairRows (ensureAccessState dbc e l newSt now).1.lab_accesses e l
        = [⟨e, l, newSt, none, now⟩]
    ∧ ∀ e2 l2 : Int, ¬(e2 = e ∧ l2 = l) →
        pairRows (ensureAccessState dbc e l newSt now).1.lab_accesses e2 l2
          = pairRows dbc.lab_accesses e2 l2 := by
  refine ⟨(ensure_shape dbc e l newSt now).trans (update_trans db0 dbc hOff _),
          ensure_pair_nodup dbc e l newSt now hnd, ?_, ?_⟩
  · rw [ensure_rows_of_find_none dbc e l newSt now hfa, pairRows_append,
      pairRows_of_removed, pairRows_single_self]
    rfl
  · intro e2 l2 hne12
    rw [ensure_rows_of_find_none dbc e l newSt now hfa, pairRows_append,
      pairRows_of_removed_ne _ _ _ _ _ hne12, pairRows_single_ne _ _ _ _ _ _ hne12,
      List.append_nil]

theorem autocheckLoop_spec (asof : PyDate) (now : Int) (db0 : DB) :
    ∀ (pairs : List (Int × Int × AccessStatus)) (dbc : DB),
      dbc = { db0 with lab_accesses := dbc.lab_accesses } →
      (pairKeys dbc.lab_accesses).Nodup →
      (pairs.map pairOf).Nodup →
      (∀ q ∈ pairs, ∃ a, pairRows dbc.lab_accesses q.1 q.2.1 = [a] ∧ a.status = q.2.2) →
      ((autocheckLoop asof now dbc pairs).1
          = { db0 with lab_accesses := (autocheckLoop asof now dbc pairs).1.lab_accesses })
      ∧ (pairKeys (autocheckLoop asof now dbc pairs).1.lab_accesses).Nodup
      ∧ (∀ q ∈ pairs, pairRows (autocheckLoop asof now dbc pairs).1.lab_accesses q.1 q.2.1
            = (pairRows dbc.lab_accesses q.1 q.2.1).map (autocheckRowResult db0 asof now))
      ∧ (∀ e l : Int, (e, l) ∉ pairs.map pairOf →
            pairRows (autocheckLoop asof now dbc pairs).1.lab_accesses e l
              = pairRows dbc.lab_accesses e l)
      ∧ (autocheckLoop asof now dbc pairs).2.1
          = pairs.countP (fun q => q.2.2 == AccessStatus.pending
              && isCompliantForLab db0 q.1 q.2.1 asof)
      ∧ (autocheckLoop asof now dbc pairs).2.2
          = pairs.countP (fun q => q.2.2 == AccessStatus.active
              && !isCompliantForLab db0 q.1 q.2.1 asof) := by
  intro pairs
  induction pairs with
  | nil =>
      intro dbc hOff hnd _ _
      refine ⟨hOff, hnd, ?_, ?_, ?_, ?_⟩
      · intro q hq
        exact absurd hq (List.not_mem_nil q)
      · intro e l _
        rfl
      · rfl
      · rfl
  | cons q0 rest ih =>
      obtain ⟨e, l, st⟩ := q0
      intro dbc hOff hnd hpnd hq
      rw [List.map_cons, List.nodup_cons] at hpnd
      obtain ⟨a0, ha0rows, ha0st⟩ := hq (e, l, st) (List.mem_cons_self _ _)
      dsimp only at ha0rows ha0st
      have ha0mem : a0 ∈ pairRows dbc.lab_accesses e l := by
        rw [ha0rows]
        exact List.mem_singleton.2 rfl
      have ha0pair : a0.engineer_id = e ∧ a0.lab_id = l := by
        have h2 := (List.mem_filter.1 ha0mem).2
        simpa only [Bool.and_eq_true, beq_iff_eq] using h2
      have hcompl : isCompliantForLab dbc e l asof = isCompliantForLab db0 e l asof := by
        rw [hOff]
        rfl
      have hheadout : ((e, l) : Int × Int) ∉ rest.map pairOf := hpnd.1
      by_cases h1 : (st == AccessStatus.pending && isCompliantForLab dbc e l asof) = true
      · -- the pending-and-compliant step: ensure an active row
        have h1s := h1
        rw [Bool.and_eq_true] at h1s
        have hst : st = AccessStatus.pending := beq_iff_eq.1 h1s.1
        have hcT : isCompliantForLab db0 e l asof = true := by
          rw [← hcompl]
          exact h1s.2
        have hfa : findAccess dbc e l AccessStatus.active = none :=
          findAccess_none_of_status_ne dbc e l AccessStatus.active a0 ha0rows
            (by rw [ha0st, hst]; decide)
        have hstepEq := autocheckStep_activate dbc asof now e l st h1
        obtain ⟨hA, hB, hCrow, hD⟩ :=
          step_ensure_facts db0 dbc e l AccessStatus.active now hOff hnd hfa
        have htrans : autocheckRowResult db0 asof now a0
            = ⟨e, l, AccessStatus.active, none, now⟩ := by
          unfold autocheckRowResult
          rw [if_pos (by rw [ha0st, hst, ha0pair.1, ha0pair.2, hcT]; simp)]
          rw [ha0pair.1, ha0pair.2]
        have hC : pairRows (ensureAccessState dbc e l AccessStatus.active now).1.lab_accesses e l
            = (pairRows dbc.lab_accesses e l).map (autocheckRowResult db0 asof now) := by
          rw [hCrow, ha0rows, List.map_cons, List.map_nil, htrans]
        have hq2 : ∀ q ∈ rest,
            ∃ a, pairRows (ensureAccessState dbc e l AccessStatus.active now).1.lab_accesses
                q.1 q.2.1 = [a] ∧ a.status = q.2.2 := by
          intro q hqr
          obtain ⟨a, har, hast⟩ := hq q (List.mem_cons_of_mem _ hqr)
          have hqne : ¬(q.1 = e ∧ q.2.1 = l) := by
            rintro ⟨hh1, hh2⟩
            apply hheadout
            have hm : pairOf q ∈ rest.map pairOf := List.mem_map_of_mem pairOf hqr
            rw [show pairOf q = (e, l) from by unfold pairOf; rw [hh1, hh2]] at hm
            exact hm
          exact ⟨a, by rw [hD q.1 q.2.1 hqne, har], hast⟩
        obtain ⟨iA, iB, iC, iD, iE1, iE2⟩ :=
          ih (ensureAccessState dbc e l AccessStatus.active now).1 hA hB hpnd.2 hq2
        have hL := autocheckLoop_cons asof now dbc e l st rest
        rw [hstepEq] at hL
        dsimp only at hL
        refine ⟨?_, ?_, ?_, ?_, ?_, ?_⟩
        · rw [hL]
          exact iA
        · rw [hL]
          exact iB
        · intro q hqmem
          rw [hL]
          dsimp only
          rcases List.mem_cons.1 hqmem with hhd | htl
          · subst hhd
            dsimp only
            rw [iD e l hheadout, hC]
          · have hqne : ¬(q.1 = e ∧ q.2.1 = l) := by
              rintro ⟨hh1, hh2⟩
              apply hheadout
              have hm : pairOf q ∈ rest.map pairOf := List.mem_map_of_mem pairOf htl
              rw [show pairOf q = (e, l) from by unfold pairOf; rw [hh1, hh2]] at hm
              exact hm
            rw [iC q htl, hD q.1 q.2.1 hqne]
        · intro e2 l2 hnotin
          rw [List.map_cons, List.mem_cons] at hnotin
          push_neg at hnotin
          rw [hL]
          dsimp only
          rw [iD e2 l2 hnotin.2]
          apply hD
          rintro ⟨hh1, hh2⟩
          apply hnotin.1
          rw [hh1, hh2]
          rfl
        · rw [hL]
          dsimp only
          rw [iE1, List.countP_cons]
          dsimp only
          rw [if_pos (by rw [hst, hcT]; simp)]
          omega
        · rw [hL]
          dsimp only
          rw [iE2, List.countP_cons]
          dsimp only
          rw [if_neg (by rw [hst]; intro habs; rw [Bool.and_eq_true] at habs; exact absurd habs.1 (by decide))]
          omega
      · by_cases h2 : (st == AccessStatus.active && !isCompliantForLab dbc e l asof) = true
        · -- the active-and-noncompliant step: ensure a revoked row
          have h2s := h2
          rw [Bool.and_eq_true] at h2s
          have hst : st = AccessStatus.active := beq_iff_eq.1 h2s.1
          have hcF : isCompliantForLab db0 e l asof = false := by
            rw [← hcompl]
            have hb := h2s.2
            cases hcv : isCompliantForLab dbc e l asof
            · rfl
            · rw [hcv] at hb
              cases hb
          have hfa : findAccess dbc e l AccessStatus.revoked = none :=
            findAccess_none_of_status_ne dbc e l AccessStatus.revoked a0 ha0rows
              (by rw [ha0st, hst]; decide)
          have hstepEq := autocheckStep_revoke dbc asof now e l st h1 h2
          obtain ⟨hA, hB, hCrow, hD⟩ :=
            step_ensure_facts db0 dbc e l AccessStatus.revoked now hOff hnd hfa
          have htrans : autocheckRowResult db0 asof now a0
              = ⟨e, l, AccessStatus.revoked, none, now⟩ := by
            unfold autocheckRowResult
            rw [if_neg (by rw [ha0st, hst]; intro habs; rw [Bool.and_eq_true] at habs; exact absurd habs.1 (by decide))]
            rw [if_pos (by rw [ha0st, hst, ha0pair.1, ha0pair.2, hcF]; simp)]
            rw [ha0pair.1, ha0pair.2]
          have hC : pairRows (ensureAccessState dbc e l AccessStatus.revoked now).1.lab_accesses e l
              = (pairRows dbc.lab_accesses e l).map (autocheckRowResult db0 asof now) := by
            rw [hCrow, ha0rows, List.map_cons, List.map_nil, htrans]
          have hq2 : ∀ q ∈ rest,
              ∃ a, pairRows (ensureAccessState dbc e l AccessStatus.revoked now).1.lab_accesses
                  q.1 q.2.1 = [a] ∧ a.status = q.2.2 := by
            intro q hqr
            obtain ⟨a, har, hast⟩ := hq q (List.mem_cons_of_mem _ hqr)
            have hqne : ¬(q.1 = e ∧ q.2.1 = l) := by
              rintro ⟨hh1, hh2⟩
              apply hheadout
              have hm : pairOf q ∈ rest.map pairOf := List.mem_map_of_mem pairOf hqr
              rw [show pairOf q = (e, l) from by unfold pairOf; rw [hh1, hh2]] at hm
              exact hm
            exact ⟨a, by rw [hD q.1 q.2.1 hqne, har], hast⟩
          obtain ⟨iA, iB, iC, iD, iE1, iE2⟩ :=
            ih (ensureAccessState dbc e l AccessStatus.revoked now).1 hA hB hpnd.2 hq2
          have hL := autocheckLoop_cons asof now dbc e l st rest
          rw [hstepEq] at hL
          dsimp only at hL
          refine ⟨?_, ?_, ?_, ?_, ?_, ?_⟩
          · rw [hL]
            exact iA
          · rw [hL]
            exact iB
          · intro q hqmem
            rw [hL]
            dsimp only
            rcases List.mem_cons.1 hqmem with hhd | htl
            · subst hhd
              dsimp only
              rw [iD e l hheadout, hC]
            · have hqne : ¬(q.1 = e ∧ q.2.1 = l) := by
                rintro ⟨hh1, hh2⟩
                apply hheadout
                have hm : pairOf q ∈ rest.map pairOf := List.mem_map_of_mem pairOf htl
                rw [show pairOf q = (e, l) from by unfold pairOf; rw [hh1, hh2]] at hm
                exact hm
              rw [iC q htl, hD q.1 q.2.1 hqne]
          · intro e2 l2 hnotin
            rw [List.map_cons, List.mem_cons] at hnotin
            push_neg at hnotin
            rw [hL]
            dsimp only
            rw [iD e2 l2 hnotin.2]
            apply hD
            rintro ⟨hh1, hh2⟩
            apply hnotin.1
            rw [hh1, hh2]
            rfl
          · rw [hL]
            dsimp only
            rw [iE1, List.countP_cons]
            dsimp only
            rw [if_neg (by rw [hst]; intro habs; rw [Bool.and_eq_true] at habs; exact absurd habs.1 (by decide))]
            omega
          · rw [hL]
            dsimp only
            rw [iE2, List.countP_cons]
            dsimp only
            rw [if_pos (by rw [hst, hcF]; simp)]
            omega
        · -- the untouched step
          have hc1F : (st == AccessStatus.pending && isCompliantForLab db0 e l asof) = false := by
            rw [← hcompl]
            exact Bool.eq_false_iff.2 h1
          have hc2F : (st == AccessStatus.active && !isCompliantForLab db0 e l asof) = false := by
            rw [← hcompl]
            exact Bool.eq_false_iff.2 h2
          have hstepEq := autocheckStep_noop dbc asof now e l st h1 h2
          have htrans : autocheckRowResult db0 asof now a0 = a0 := by
            unfold autocheckRowResult
            rw [if_neg (by rw [ha0st, ha0pair.1, ha0pair.2, hc1F]; simp)]
            rw [if_neg (by rw [ha0st, ha0pair.1, ha0pair.2, hc2F]; simp)]
          have hC : pairRows dbc.lab_accesses e l
              = (pairRows dbc.lab_accesses e l).map (autocheckRowResult db0 asof now) := by
            rw [ha0rows, List.map_cons, List.map_nil, htrans]
          have hq2 : ∀ q ∈ rest,
              ∃ a, pairRows dbc.lab_accesses q.1 q.2.1 = [a] ∧ a.status = q.2.2 :=
            fun q hqr => hq q (List.mem_cons_of_mem _ hqr)
          obtain ⟨iA, iB, iC, iD, iE1, iE2⟩ := ih dbc hOff hnd hpnd.2 hq2
          have hL := autocheckLoop_cons asof now dbc e l st rest
          rw [hstepEq] at hL
          dsimp only at hL
          refine ⟨?_, ?_, ?_, ?_, ?_, ?_⟩
          · rw [hL]
            exact iA
          · rw [hL]
            exact iB
          · intro q hqmem
            rw [hL]
            dsimp only
            rcases List.mem_cons.1 hqmem with hhd | htl
            · subst hhd
              dsimp only
              rw [iD e l hheadout]
              exact hC
            · exact iC q htl
          · intro e2 l2 hnotin
            rw [List.map_cons, List.mem_cons] at hnotin
            push_neg at hnotin
            rw [hL]
            dsimp only
            exact iD e2 l2 hnotin.2
          · rw [hL]
            dsimp only
            rw [iE1, List.countP_cons]
            dsimp only
            rw [if_neg (by rw [hc1F]; simp)]
            omega
          · rw [hL]
            dsimp only
            rw [iE2, List.countP_cons]
            dsimp only
            rw [if_neg (by rw [hc2F]; simp)]
            omega

theorem map_id_of_eq {α : Type} (f : α → α) (l : List α) (h : ∀ a ∈ l, f a = a) :
    l.map f = l := by
  induction l with
  | nil => rfl
  | cons hd tl ih =>
      rw [List.map_cons, h hd (List.mem_cons_self _ _),
        ih (fun a ha => h a (List.mem_cons_of_mem _ ha))]

theorem autocheckLoop_noop (asof : PyDate) (now : Int) (dbx : DB) :
    ∀ pairs : List (Int × Int × AccessStatus),
      (∀ q ∈ pairs, (q.2.2 == AccessStatus.pending
            && isCompliantForLab dbx q.1 q.2.1 asof) = false
          ∧ (q.2.2 == AccessStatus.active
            && !isCompliantForLab dbx q.1 q.2.1 asof) = false) →
      autocheckLoop asof now dbx pairs = (dbx, 0, 0) := by
  intro pairs
  induction pairs with
  | nil => intro _; rfl
  | cons q0 rest ih =>
      obtain ⟨e, l, st⟩ := q0
      intro h
      obtain ⟨hh1, hh2⟩ := h (e, l, st) (List.mem_cons_self _ _)
      dsimp only at hh1 hh2
      have hstep := autocheckStep_noop dbx asof now e l st
        (by rw [hh1]; simp) (by rw [hh2]; simp)
      rw [autocheckLoop_cons asof now dbx e l st rest, hstep]
      dsimp only
      rw [ih (fun q hq => h q (List.mem_cons_of_mem _ hq))]
      rfl

theorem autocheckPairs_map_pairOf (db : DB) :
    (autocheckPairs db).map pairOf
      = pairKeys (db.lab_accesses.filter (fun a =>
          a.status == AccessStatus.pending || a.status == AccessStatus.active)) := by
  unfold autocheckPairs pairKeys
  rw [List.map_map]
  rfl

theorem autocheckPairs_nodup (db : DB) (h : (pairKeys db.lab_accesses).Nodup) :
    ((autocheckPairs db).map pairOf).Nodup := by
  rw [autocheckPairs_map_pairOf]
  exact List.Nodup.sublist (List.Sublist.map _ (List.filter_sublist _)) h

theorem mem_autocheckPairs (db : DB) (q : Int × Int × AccessStatus) :
    q ∈ autocheckPairs db ↔ ∃ a ∈ db.lab_accesses,
      (a.status == AccessStatus.pending || a.status == AccessStatus.active) = true
      ∧ (a.engineer_id, a.lab_id, a.status) = q := by
  unfold autocheckPairs
  rw [List.mem_map]
  constructor
  · rintro ⟨a, ha, rfl⟩
    have h2 := List.mem_filter.1 ha
    exact ⟨a, h2.1, h2.2, rfl⟩
  · rintro ⟨a, ha, hst, rfl⟩
    exact ⟨a, List.mem_filter.2 ⟨ha, hst⟩, rfl⟩

theorem autocheck_countP_pending (db0 db : DB) (asof : PyDate) :
    (autocheckPairs db).countP (fun q => q.2.2 == AccessStatus.pending
        && isCompliantForLab db0 q.1 q.2.1 asof)
      = db.lab_accesses.countP (fun a => a.status == AccessStatus.pending
        && isCompliantForLab db0 a.engineer_id a.lab_id asof) := by
  unfold autocheckPairs
  rw [List.countP_map, List.countP_filter]
  apply List.countP_congr
  intro a _
  show ((a.status == AccessStatus.pending && isCompliantForLab db0 a.engineer_id a.lab_id asof)
        && (a.status == AccessStatus.pending || a.status == AccessStatus.active)) = true
      ↔ (a.status == AccessStatus.pending
        && isCompliantForLab db0 a.engineer_id a.lab_id asof) = true
  constructor
  · intro hx
    rw [Bool.and_eq_true] at hx
    exact hx.1
  · intro hx
    rw [Bool.and_eq_true]
    refine ⟨hx, ?_⟩
    rw [Bool.and_eq_true] at hx
    rw [Bool.or_eq_true]
    exact Or.inl hx.1

theorem autocheck_countP_active (db0 db : DB) (asof : PyDate) :
    (autocheckPairs db).countP (fun q => q.2.2 == AccessStatus.active
        && !isCompliantForLab db0 q.1 q.2.1 asof)
      = db.lab_accesses.countP (fun a => a.status == AccessStatus.active
        && !isCompliantForLab db0 a.engineer_id a.lab_id asof) := by
  unfold autocheckPairs
  rw [List.countP_map, List.countP_filter]
  apply List.countP_congr
  intro a _
  show ((a.status == AccessStatus.active && !isCompliantForLab db0 a.engineer_id a.lab_id asof)
        && (a.status == AccessStatus.pending || a.status == AccessStatus.active)) = true
      ↔ (a.status == AccessStatus.active
        && !isCompliantForLab db0 a.engineer_id a.lab_id asof) = true
  constructor
  · intro hx
    rw [Bool.and_eq_true] at hx
    exact hx.1
  · intro hx
    rw [Bool.and_eq_true]
    refine ⟨hx, ?_⟩
    rw [Bool.and_eq_true] at hx
    rw [Bool.or_eq_true]
    exact Or.inr hx.1

/-- Claim C2 (amended): on a store in which every (engineer, lab) pair has at
most one LabAccess row, autocheck succeeds; its activation count is the number
of pending rows of now-compliant pairs and its revocation count the number of
active rows of now-non-compliant pairs; per pair, a pending row of a compliant
pair is replaced by exactly the fresh active row with no leftover pending row,
an active row of a non-compliant pair by the fresh revoked row, and revoked,
pending-still-noncompliant and active-still-compliant rows are untouched; and a
second run with no intervening data change returns the same store with zero
activations and zero revocations. -/
theorem autocheck_spec (db : DB) (asof : PyDate) (now now2 : Int)
    (h : (pairKeys db.lab_accesses).Nodup) :
    ∃ db1 A R,
      autocheck db asof now = Except.ok (db1, A, R)
      ∧ A = db.lab_accesses.countP (fun a => a.status == AccessStatus.pending
            && isCompliantForLab db a.engineer_id a.lab_id asof)
      ∧ R = db.lab_accesses.countP (fun a => a.status == AccessStatus.active
            && !isCompliantForLab db a.engineer_id a.lab_id asof)
      ∧ (∀ e l : Int, pairRows db1.lab_accesses e l
            = (pairRows db.lab_accesses e l).map (autocheckRowResult db asof now))
      ∧ autocheck db1 asof now2 = Except.ok (db1, 0, 0) := by
  have hq0 : ∀ q ∈ autocheckPairs db,
      ∃ a, pairRows db.lab_accesses q.1 q.2.1 = [a] ∧ a.status = q.2.2 := by
    intro q hqm
    obtain ⟨a, ham, hstat, hrfl⟩ := (mem_autocheckPairs db q).1 hqm
    subst hrfl
    exact ⟨a, filter_pair_eq_single db.lab_accesses a ham h, rfl⟩
  obtain ⟨iA, iB, iC, iD, iE1, iE2⟩ :=
    autocheckLoop_spec asof now db (autocheckPairs db) db rfl h (autocheckPairs_nodup db h) hq0
  have hPP : ∀ e l : Int,
      pairRows (autocheckLoop asof now db (autocheckPairs db)).1.lab_accesses e l
        = (pairRows db.lab_accesses e l).map (autocheckRowResult db asof now) := by
    intro e l
    by_cases hmem : ((e, l) : Int × Int) ∈ (autocheckPairs db).map pairOf
    · obtain ⟨q, hqm, hpq⟩ := List.mem_map.1 hmem
      have hq1 : q.1 = e ∧ q.2.1 = l := by
        unfold pairOf at hpq
        simpa only [Prod.mk.injEq] using hpq
      have h2 := iC q hqm
      rw [hq1.1, hq1.2] at h2
      exact h2
    · rw [iD e l hmem]
      have hid : ∀ a ∈ pairRows db.lab_accesses e l,
          autocheckRowResult db asof now a = a := by
        intro a hamem
        have ha1 : a ∈ db.lab_accesses := (List.mem_filter.1 hamem).1
        have hpair : a.engineer_id = e ∧ a.lab_id = l := by
          have h2 := (List.mem_filter.1 hamem).2
          simpa only [Bool.and_eq_true, beq_iff_eq] using h2
        have hnotsel : ∀ hstval : (a.status == AccessStatus.pending
              || a.status == AccessStatus.active) = true, False := by
          intro hstval
          apply hmem
          have hfm : a ∈ db.lab_accesses.filter (fun x =>
              x.status == AccessStatus.pending || x.status == AccessStatus.active) :=
            List.mem_filter.2 ⟨ha1, hstval⟩
          have hm1 : (a.engineer_id, a.lab_id, a.status) ∈ autocheckPairs db := by
            unfold autocheckPairs
            exact List.mem_map_of_mem _ hfm
          have hm2 := List.mem_map_of_mem pairOf hm1
          rw [show pairOf (a.engineer_id, a.lab_id, a.status) = (e, l) from
            by dsimp only [pairOf]; rw [hpair.1, hpair.2]] at hm2
          exact hm2
        have hstat : a.status = AccessStatus.revoked := by
          cases hs : a.status with
          | revoked => rfl
          | pending =>
              exfalso
              apply hnotsel
              rw [hs]
              decide
          | active =>
              exfalso
              apply hnotsel
              rw [hs]
              decide
        unfold autocheckRowResult
        rw [if_neg (by rw [hstat]; intro habs; rw [Bool.and_eq_true] at habs; exact absurd habs.1 (by decide))]
        rw [if_neg (by rw [hstat]; intro habs; rw [Bool.and_eq_true] at habs; exact absurd habs.1 (by decide))]
      rw [map_id_of_eq _ _ hid]
  have hok : autocheck db asof now
      = Except.ok ((autocheckLoop asof now db (autocheckPairs db)).1,
          (autocheckLoop asof now db (autocheckPairs db)).2.1,
          (autocheckLoop asof now db (autocheckPairs db)).2.2) := by
    simp only [autocheck]
    rw [commitDB_ok _ (key_nodup_of_pair_nodup _ iB)]
    rfl
  have hcompl1 : ∀ x y : Int,
      isCompliantForLab (autocheckLoop asof now db (autocheckPairs db)).1 x y asof
        = isCompliantForLab db x y asof := by
    intro x y
    rw [iA]
    rfl
  have hnoop : ∀ q ∈ autocheckPairs (autocheckLoop asof now db (autocheckPairs db)).1,
      (q.2.2 == AccessStatus.pending && isCompliantForLab
          (autocheckLoop asof now db (autocheckPairs db)).1 q.1 q.2.1 asof) = false
      ∧ (q.2.2 == AccessStatus.active && !isCompliantForLab
          (autocheckLoop asof now db (autocheckPairs db)).1 q.1 q.2.1 asof) = false := by
    intro q hqm
    obtain ⟨a1, ha1m, hst1, hrfl⟩ := (mem_autocheckPairs _ q).1 hqm
    subst hrfl
    dsimp only
    rw [hcompl1 a1.engineer_id a1.lab_id]
    have ha1self : a1 ∈ pairRows
        (autocheckLoop asof now db (autocheckPairs db)).1.lab_accesses
        a1.engineer_id a1.lab_id := by
      unfold pairRows
      exact List.mem_filter.2 ⟨ha1m, by simp⟩
    rw [hPP a1.engineer_id a1.lab_id] at ha1self
    obtain ⟨a0, ha0m, ha0t⟩ := List.mem_map.1 ha1self
    cases hs : a0.status with
    | pending =>
        cases hc : isCompliantForLab db a0.engineer_id a0.lab_id asof with
        | true =>
            have htr : autocheckRowResult db asof now a0
                = ⟨a0.engineer_id, a0.lab_id, AccessStatus.active, none, now⟩ := by
              unfold autocheckRowResult
              rw [if_pos (by rw [hs, hc]; simp)]
            rw [htr] at ha0t
            rw [← ha0t]
            dsimp only
            rw [hc]
            exact ⟨rfl, rfl⟩
        | false =>
            have htr : autocheckRowResult db asof now a0 = a0 := by
              unfold autocheckRowResult
              rw [if_neg (by rw [hs, hc]; simp)]
              rw [if_neg (by rw [hs]; intro habs; rw [Bool.and_eq_true] at habs; exact absurd habs.1 (by decide))]
            rw [htr] at ha0t
            subst ha0t
            rw [hs, hc]
            exact ⟨rfl, rfl⟩
    | active =>
        cases hc : isCompliantForLab db a0.engineer_id a0.lab_id asof with
        | true =>
            have htr : autocheckRowResult db asof now a0 = a0 := by
              unfold autocheckRowResult
              rw [if_neg (by rw [hs]; intro habs; rw [Bool.and_eq_true] at habs; exact absurd habs.1 (by decide))]
              rw [if_neg (by rw [hs, hc]; simp)]
            rw [htr] at ha0t
            subst ha0t
            rw [hs, hc]
            exact ⟨rfl, rfl⟩
        | false =>
            exfalso
            have htr : autocheckRowResult db asof now a0
                = ⟨a0.engineer_id, a0.lab_id, AccessStatus.revoked, none, now⟩ := by
              unfold autocheckRowResult
              rw [if_neg (by rw [hs]; intro habs; rw [Bool.and_eq_true] at habs; exact absurd habs.1 (by decide))]
              rw [if_pos (by rw [hs, hc]; simp)]
            rw [htr] at ha0t
            rw [← ha0t] at hst1
            dsimp only at hst1
            exact absurd hst1 (by decide)
    | revoked =>
        exfalso
        have htr : autocheckRowResult db asof now a0 = a0 := by
          unfold autocheckRowResult
          rw [if_neg (by rw [hs]; intro habs; rw [Bool.and_eq_true] at habs; exact absurd habs.1 (by decide))]
          rw [if_neg (by rw [hs]; intro habs; rw [Bool.and_eq_true] at habs; exact absurd habs.1 (by decide))]
        rw [htr] at ha0t
        subst ha0t
        rw [hs] at hst1
        exact absurd hst1 (by decide)
  have hrun2 : autocheck (autocheckLoop asof now db (autocheckPairs db)).1 asof now2
      = Except.ok ((autocheckLoop asof now db (autocheckPairs db)).1, 0, 0) := by
    simp only [autocheck]
    rw [autocheckLoop_noop asof now2 _ _ hnoop]
    dsimp only
    rw [commitDB_ok _ (key_nodup_of_pair_nodup _ iB)]
    rfl
  refine ⟨(autocheckLoop asof now db (autocheckPairs db)).1,
          (autocheckLoop asof now db (autocheckPairs db)).2.1,
          (autocheckLoop asof now db (autocheckPairs db)).2.2,
          hok, ?_, ?_, hPP, hrun2⟩
  · rw [iE1]
    exact autocheck_countP_pending db db asof
  · rw [iE2]
    exact autocheck_countP_active db db asof

/-- Counterexample to claim C2 as stated: on a store where the pair (1, 1) has
both a pending and an active row and is compliant, every autocheck run reports
one activation (the ensure step finds the active row and returns early), so the
second run does not produce zero activations, and the pending row is never
cleaned up. -/
theorem autocheck_counterexample :
    autocheck dbC2 ⟨2024, 1, 1⟩ 5 = Except.ok (dbC2, 1, 0)
    ∧ autocheck dbC2 ⟨2024, 1, 1⟩ 6 = Except.ok (dbC2, 1, 0)
    ∧ (pendingFor dbC2 1 1).length = 1
    ∧ isCompliantForLab dbC2 1 1 ⟨2024, 1, 1⟩ = true := by
  decide

/-- Witness for claim C2: a store with one pending row for the vacuously
compliant lab 1 satisfies the one-row-per-pair invariant, and the specification
instantiates there. -/
theorem autocheck_witness :
    ∃ db1 A R,
      autocheck dbW2 ⟨2024, 1, 1⟩ 5 = Except.ok (db1, A, R)
      ∧ A = dbW2.lab_accesses.countP (fun a => a.status == AccessStatus.pending
            && isCompliantForLab dbW2 a.engineer_id a.lab_id ⟨2024, 1, 1⟩)
      ∧ R = dbW2.lab_accesses.countP (fun a => a.status == AccessStatus.active
            && !isCompliantForLab dbW2 a.engineer_id a.lab_id ⟨2024, 1, 1⟩)
      ∧ (∀ e l : Int, pairRows db1.lab_accesses e l
            = (pairRows dbW2.lab_accesses e l).map (autocheckRowResult dbW2 ⟨2024, 1, 1⟩ 5))
      ∧ autocheck db1 ⟨2024, 1, 1⟩ 6 = Except.ok (db1, 0, 0) :=
  autocheck_spec dbW2 ⟨2024, 1, 1⟩ 5 6 (by decide)

end TerCompliance
